import Mathlib

/-!
# Verification of the Stripe → Pub/Sub webhook ingress (`src/main.py`)

A shallow embedding of the request-handling core of `main.py`:

* JSON values (`Json`) with a serializer `dumps` mirroring Python's
  `json.dumps` under its defaults (item separator `", "`, key separator
  `": "`, `ensure_ascii=True`), and a fueled parser `loads` mirroring
  `json.loads` on this fragment (numbers restricted to integers: the
  event payloads at issue carry only integral numbers, and floating
  point is outside the embedding).
* A byte-level UTF-8 codec for `bytes.decode()` / `str.encode()`.
* The module configuration loading (chapter 3 of `main.py`), the dedupe
  helpers `already_processed` / `mark_processed` (chapter 5), `publish`,
  and the request handler `webhook` (chapter 6).

External effects (the Pub/Sub acknowledgement and the dedupe storage
layer outcome) are modelled by an explicit `World` record threaded into
the handler; `webhook` returns `none` exactly where the Python code
would let an exception escape the handler (e.g. a `KeyError` on a
verified payload with no `"id"` entry).
-/

/-! ## JSON values

Objects and arrays are mutual inductives (rather than nested `List`
fields) so that mutual structural recursion and induction stay
available. `JsonObj` keeps insertion order, as a Python `dict` does.
-/

mutual

inductive Json where
  | null
  | bool (b : Bool)
  | num (n : Int)
  | str (s : List Char)
  | arr (xs : JsonList)
  | obj (kvs : JsonObj)
deriving DecidableEq

inductive JsonList where
  | nil
  | cons (hd : Json) (tl : JsonList)
deriving DecidableEq

inductive JsonObj where
  | nil
  | cons (k : List Char) (v : Json) (tl : JsonObj)
deriving DecidableEq

end

/-! Structural equality of JSON values, mirroring Python `==` on the
decoded structures (used by the `event_id in _cache` membership test). -/

mutual

def jeq : Json → Json → Bool
  | .null, .null => true
  | .bool a, .bool b => a == b
  | .num a, .num b => a == b
  | .str a, .str b => a == b
  | .arr a, .arr b => jeqL a b
  | .obj a, .obj b => jeqO a b
  | _, _ => false

def jeqL : JsonList → JsonList → Bool
  | .nil, .nil => true
  | .cons a ta, .cons b tb => jeq a b && jeqL ta tb
  | _, _ => false

def jeqO : JsonObj → JsonObj → Bool
  | .nil, .nil => true
  | .cons ka va ta, .cons kb vb tb => ka == kb && jeq va vb && jeqO ta tb
  | _, _ => false

end

instance : BEq Json := ⟨jeq⟩

def objFind : JsonObj → List Char → Option Json
  | .nil, _ => none
  | .cons k v tl, key => if k == key then some v else objFind tl key

/-- Python `dict` lookup on a decoded JSON document (`event["id"]`):
`some` on an object that has the key, `none` where Python would raise
(`KeyError`, or `TypeError` on a non-object). -/
def objGet (v : Json) (key : List Char) : Option Json :=
  match v with
  | .obj kvs => objFind kvs key
  | _ => none

/-- Python `dict` keys are hashable; a decoded JSON array or object is a
`list`/`dict` and raises `TypeError` when used in `x in cache`. -/
def hashableKey : Json → Bool
  | .arr _ => false
  | .obj _ => false
  | _ => true

/-! ## Serialization: `json.dumps` under its defaults -/

/-- One decimal digit character, `d < 10`. -/
def digitChar (d : Nat) : Char := Char.ofNat (48 + d)

/-- Decimal digits of `n` (most significant first) prepended to `acc`.
Structural on an explicit fuel so that the definition reduces inside the
kernel; `fuel = n + 1` always suffices (a number has at most `n + 1`
digits). -/
def natDigitsAux : Nat → Nat → List Char → List Char
  | 0, _, acc => acc
  | fuel + 1, n, acc =>
    if n < 10 then digitChar n :: acc
    else natDigitsAux fuel (n / 10) (digitChar (n % 10) :: acc)

/-- Decimal representation of a natural number, as `str` yields it. -/
def natRepr (n : Nat) : List Char := natDigitsAux (n + 1) n []

/-- Decimal representation of an integer, as Python `str`/`json.dumps`
yields it: a minus sign for negatives, then the digits. -/
def intRepr (n : Int) : List Char :=
  if n < 0 then '-' :: natRepr (-n).toNat else natRepr n.toNat

/-- Lowercase hexadecimal digit, `d < 16`. -/
def hexChar (d : Nat) : Char :=
  if d < 10 then Char.ofNat (48 + d) else Char.ofNat (87 + d)

/-- Four lowercase hex digits of `n < 0x10000`, as in a `\uXXXX` escape. -/
def hex4 (n : Nat) : List Char :=
  [hexChar (n / 4096 % 16), hexChar (n / 256 % 16), hexChar (n / 16 % 16), hexChar (n % 16)]

/-- A `\uXXXX` escape sequence; code points beyond the basic plane are
written as a surrogate pair, as `json.dumps` does with `ensure_ascii`. -/
def uEscape (n : Nat) : List Char :=
  if n < 0x10000 then '\\' :: 'u' :: hex4 n
  else
    '\\' :: 'u' :: hex4 (0xD800 + (n - 0x10000) / 0x400) ++
      '\\' :: 'u' :: hex4 (0xDC00 + (n - 0x10000) % 0x400)

/-- `json.dumps` escaping of one string character (`ensure_ascii=True`):
the two-character escapes for the JSON specials, `\uXXXX` for the other
control characters and for everything outside printable ASCII. -/
def escapeChar (c : Char) : List Char :=
  if c = '"' then ['\\', '"']
  else if c = '\\' then ['\\', '\\']
  else if c = '\n' then ['\\', 'n']
  else if c = '\t' then ['\\', 't']
  else if c = '\r' then ['\\', 'r']
  else if c = '\x08' then ['\\', 'b']
  else if c = '\x0c' then ['\\', 'f']
  else if c.toNat < 0x20 ∨ 0x7f ≤ c.toNat then uEscape c.toNat
  else [c]

def escapeStr : List Char → List Char
  | [] => []
  | c :: r => escapeChar c ++ escapeStr r

/-! `json.dumps` with its default arguments: item separator `", "`, key
separator `": "`. This is the exact byte text (before UTF-8 encoding)
that `publish` sends to the topic. -/

mutual

def dumps : Json → List Char
  | .null => "null".data
  | .bool true => "true".data
  | .bool false => "false".data
  | .num n => intRepr n
  | .str s => '"' :: escapeStr s ++ ['"']
  | .arr xs => '[' :: dumpsElems xs ++ [']']
  | .obj kvs => '\x7b' :: dumpsMembers kvs ++ ['\x7d']

def dumpsElems : JsonList → List Char
  | .nil => []
  | .cons v .nil => dumps v
  | .cons v (.cons w tl) => dumps v ++ ',' :: ' ' :: dumpsElems (.cons w tl)

def dumpsMembers : JsonObj → List Char
  | .nil => []
  | .cons k v .nil => '"' :: escapeStr k ++ '"' :: ':' :: ' ' :: dumps v
  | .cons k v (.cons k2 v2 tl) =>
    '"' :: escapeStr k ++ '"' :: ':' :: ' ' :: dumps v ++
      ',' :: ' ' :: dumpsMembers (.cons k2 v2 tl)

end

/-! ## Parsing: `json.loads` on this fragment -/

def isWsChar (c : Char) : Bool := c = ' ' ∨ c = '\t' ∨ c = '\n' ∨ c = '\r'

def skipWs : List Char → List Char
  | [] => []
  | c :: r => if isWsChar c then skipWs r else c :: r

/-- Value of a hexadecimal digit character (`json.loads` accepts both
cases in `\u` escapes). -/
def hexVal (c : Char) : Option Nat :=
  if 48 ≤ c.toNat ∧ c.toNat ≤ 57 then some (c.toNat - 48)
  else if 97 ≤ c.toNat ∧ c.toNat ≤ 102 then some (c.toNat - 87)
  else if 65 ≤ c.toNat ∧ c.toNat ≤ 70 then some (c.toNat - 55)
  else none

/-! The body of a JSON string after its opening quote: plain characters
up to the closing quote, with the backslash escapes undone. `\uXXXX`
escapes are combined into scalar values (surrogate pairs are paired; a
lone surrogate is rejected, where CPython would build an unpaired
surrogate `str` — such a value cannot occur as `json.dumps` output and
is unrepresentable in `Char`). -/

/-- The single-character backslash escapes of the JSON grammar. -/
def unescapeChar (e : Char) : Option Char :=
  if e = '"' ∨ e = '\\' ∨ e = '/' then some e
  else if e = 'n' then some '\n'
  else if e = 't' then some '\t'
  else if e = 'r' then some '\r'
  else if e = 'b' then some '\x08'
  else if e = 'f' then some '\x0c'
  else none

/-- The low-surrogate half of an escaped pair: a `\uXXXX` carrying a
value in `[0xDC00, 0xE000)`, combined with the high half `hi` into one
scalar value. -/
def uPair (hi : Nat) : List Char → Option (Char × List Char)
  | '\\' :: 'u' :: g1 :: g2 :: g3 :: g4 :: rest2 =>
    match hexVal g1, hexVal g2, hexVal g3, hexVal g4 with
    | some a2, some b2, some c3, some d2 =>
      if 0xDC00 ≤ ((a2 * 16 + b2) * 16 + c3) * 16 + d2 ∧
          ((a2 * 16 + b2) * 16 + c3) * 16 + d2 < 0xE000 then
        some (Char.ofNat (0x10000 + (hi - 0xD800) * 0x400 +
          (((a2 * 16 + b2) * 16 + c3) * 16 + d2 - 0xDC00)), rest2)
      else none
    | _, _, _, _ => none
  | _ => none

/-- The text after a `\u`: four hex digits, with a high surrogate
followed by a paired `\uXXXX` low surrogate combined into one scalar
value. -/
def uDecode : List Char → Option (Char × List Char)
  | h1 :: h2 :: h3 :: h4 :: rest =>
    match hexVal h1, hexVal h2, hexVal h3, hexVal h4 with
    | some a, some b, some c2, some d =>
      if 0xD800 ≤ ((a * 16 + b) * 16 + c2) * 16 + d ∧
          ((a * 16 + b) * 16 + c2) * 16 + d < 0xDC00 then
        uPair (((a * 16 + b) * 16 + c2) * 16 + d) rest
      else if 0xDC00 ≤ ((a * 16 + b) * 16 + c2) * 16 + d ∧
          ((a * 16 + b) * 16 + c2) * 16 + d < 0xE000 then none
      else some (Char.ofNat (((a * 16 + b) * 16 + c2) * 16 + d), rest)
    | _, _, _, _ => none
  | _ => none

/-- String-body scanning, structural on a fuel that one consumed
character per step keeps ahead of the input. -/
def parseStringAux : Nat → List Char → List Char → Option (List Char × List Char)
  | 0, _, _ => none
  | fuel + 1, acc, cs =>
    match cs with
    | '"' :: rest => some (acc.reverse, rest)
    | '\\' :: 'u' :: rest =>
      match uDecode rest with
      | some (ch, rest2) => parseStringAux fuel (ch :: acc) rest2
      | none => none
    | '\\' :: e :: rest =>
      match unescapeChar e with
      | some ch => parseStringAux fuel (ch :: acc) rest
      | none => none
    | c :: rest => if c.toNat < 0x20 then none else parseStringAux fuel (c :: acc) rest
    | [] => none

def parseString (cs : List Char) : Option (List Char × List Char) :=
  parseStringAux (cs.length + 1) [] cs

/-- Longest digit run at the head of the input, and the remainder. -/
def takeDigits : List Char → List Char × List Char
  | [] => ([], [])
  | c :: r =>
    if c.isDigit then
      match takeDigits r with
      | (ds, rest) => (c :: ds, rest)
    else ([], c :: r)

/-- Numeric value of a digit run. -/
def digitsVal (ds : List Char) : Nat :=
  ds.foldl (fun a c => a * 10 + (c.toNat - 48)) 0

/-- A digit run that the JSON grammar rejects as an int literal: a
leading zero followed by more digits. -/
def leadingZero : List Char → Bool
  | c :: _ :: _ => c == '0'
  | _ => false

/-- An integer literal: optional minus sign, then at least one digit,
no leading zero. Fraction and exponent forms are floats in Python and
outside this embedding (they surface here as a parse failure rather
than a float value). -/
def parseNumber : List Char → Option (Json × List Char)
  | [] => none
  | c :: r =>
    if c = '-' then
      match takeDigits r with
      | ([], _) => none
      | (ds, rest) => if leadingZero ds then none else some (.num (-(digitsVal ds : Int)), rest)
    else
      match takeDigits (c :: r) with
      | ([], _) => none
      | (ds, rest) => if leadingZero ds then none else some (.num ((digitsVal ds : Int)), rest)

/-! The recursive-descent value parser, structural on an explicit fuel;
every recursive call lowers the fuel, and each unit of fuel consumes at
least one input character, so `length + 1` fuel is never the reason a
parse fails. -/

mutual

def parseVal : Nat → List Char → Option (Json × List Char)
  | 0, _ => none
  | fuel + 1, cs =>
    match skipWs cs with
    | [] => none
    | c :: r =>
      if c = '-' ∨ c.isDigit then parseNumber (c :: r)
      else if c = '"' then (parseString r).map (fun p => (.str p.1, p.2))
      else if c = '[' then
        match skipWs r with
        | [] => none
        | c2 :: r2 =>
          if c2 = ']' then some (.arr .nil, r2)
          else (parseElems fuel (c2 :: r2)).map (fun p => (.arr p.1, p.2))
      else if c = '\x7b' then
        match skipWs r with
        | [] => none
        | c2 :: r2 =>
          if c2 = '\x7d' then some (.obj .nil, r2)
          else (parseMembers fuel (c2 :: r2)).map (fun p => (.obj p.1, p.2))
      else
        match c, r with
        | 'n', 'u' :: 'l' :: 'l' :: r2 => some (.null, r2)
        | 't', 'r' :: 'u' :: 'e' :: r2 => some (.bool true, r2)
        | 'f', 'a' :: 'l' :: 's' :: 'e' :: r2 => some (.bool false, r2)
        | _, _ => none

def parseElems : Nat → List Char → Option (JsonList × List Char)
  | 0, _ => none
  | fuel + 1, cs =>
    (parseVal fuel cs).bind (fun p =>
      match skipWs p.2 with
      | ',' :: r2 => (parseElems fuel r2).map (fun q => (JsonList.cons p.1 q.1, q.2))
      | ']' :: r2 => some (.cons p.1 .nil, r2)
      | _ => none)

def parseMembers : Nat → List Char → Option (JsonObj × List Char)
  | 0, _ => none
  | fuel + 1, cs =>
    match skipWs cs with
    | '"' :: r =>
      (parseString r).bind (fun kp =>
        match skipWs kp.2 with
        | ':' :: r2 =>
          (parseVal fuel r2).bind (fun vp =>
            match skipWs vp.2 with
            | ',' :: r4 => (parseMembers fuel r4).map (fun q => (JsonObj.cons kp.1 vp.1 q.1, q.2))
            | '\x7d' :: r4 => some (.cons kp.1 vp.1 .nil, r4)
            | _ => none)
        | _ => none)
    | _ => none

end

/-- `json.loads`: parse a complete document, allowing only trailing
whitespace after the value. -/
def loads (cs : List Char) : Option Json :=
  match parseVal (cs.length + 1) cs with
  | some (v, rest) => if skipWs rest = [] then some v else none
  | none => none

/-! ## UTF-8: `bytes.decode()` and `str.encode()` -/

/-- Whether a byte is a UTF-8 continuation byte. -/
def utf8Cont (b : Nat) : Bool := 0x80 ≤ b ∧ b < 0xC0

/-- The continuation byte of a two-byte sequence led by `b1`. -/
def utf8Tail2 (b1 : Nat) : List Nat → Option (Nat × List Nat)
  | b2 :: bs =>
    if utf8Cont b2 then some ((b1 - 0xC0) * 0x40 + (b2 - 0x80), bs) else none
  | _ => none

/-- The continuation bytes of a three-byte sequence led by `b1`, with
overlong forms and surrogates rejected. -/
def utf8Tail3 (b1 : Nat) : List Nat → Option (Nat × List Nat)
  | b2 :: b3 :: bs =>
    if utf8Cont b2 ∧ utf8Cont b3 then
      if 0x800 ≤ (b1 - 0xE0) * 0x1000 + (b2 - 0x80) * 0x40 + (b3 - 0x80) ∧
          ¬(0xD800 ≤ (b1 - 0xE0) * 0x1000 + (b2 - 0x80) * 0x40 + (b3 - 0x80) ∧
            (b1 - 0xE0) * 0x1000 + (b2 - 0x80) * 0x40 + (b3 - 0x80) < 0xE000) then
        some ((b1 - 0xE0) * 0x1000 + (b2 - 0x80) * 0x40 + (b3 - 0x80), bs)
      else none
    else none
  | _ => none

/-- The continuation bytes of a four-byte sequence led by `b1`, with
overlong and out-of-range forms rejected. -/
def utf8Tail4 (b1 : Nat) : List Nat → Option (Nat × List Nat)
  | b2 :: b3 :: b4 :: bs =>
    if utf8Cont b2 ∧ utf8Cont b3 ∧ utf8Cont b4 then
      if 0x10000 ≤ (b1 - 0xF0) * 0x40000 + (b2 - 0x80) * 0x1000 + (b3 - 0x80) * 0x40 +
            (b4 - 0x80) ∧
          (b1 - 0xF0) * 0x40000 + (b2 - 0x80) * 0x1000 + (b3 - 0x80) * 0x40 + (b4 - 0x80) ≤
            0x10FFFF then
        some ((b1 - 0xF0) * 0x40000 + (b2 - 0x80) * 0x1000 + (b3 - 0x80) * 0x40 + (b4 - 0x80),
          bs)
      else none
    else none
  | _ => none

/-- Strict UTF-8 decoding of a byte list, as `bytes.decode()` performs
it: continuation bytes checked, overlong forms, surrogates and
out-of-range values rejected (`UnicodeDecodeError ⊂ ValueError`
otherwise). Structural on a fuel that one consumed byte per step keeps
ahead of the input. -/
def utf8DecodeAux : Nat → List Nat → Option (List Char)
  | 0, _ => none
  | _, [] => some []
  | fuel + 1, b1 :: bs =>
    if b1 < 0x80 then (utf8DecodeAux fuel bs).map (fun t => Char.ofNat b1 :: t)
    else if b1 < 0xC2 then none
    else if b1 < 0xE0 then
      match utf8Tail2 b1 bs with
      | some (n, bs2) => (utf8DecodeAux fuel bs2).map (fun t => Char.ofNat n :: t)
      | none => none
    else if b1 < 0xF0 then
      match utf8Tail3 b1 bs with
      | some (n, bs2) => (utf8DecodeAux fuel bs2).map (fun t => Char.ofNat n :: t)
      | none => none
    else if b1 < 0xF5 then
      match utf8Tail4 b1 bs with
      | some (n, bs2) => (utf8DecodeAux fuel bs2).map (fun t => Char.ofNat n :: t)
      | none => none
    else none

def utf8Decode (bs : List Nat) : Option (List Char) := utf8DecodeAux (bs.length + 1) bs

/-- UTF-8 encoding of one scalar value (`str.encode()`), with `n` its
code point. -/
def utf8EncodeNat (n : Nat) : List Nat :=
  if n < 0x80 then [n]
  else if n < 0x800 then [0xC0 + n / 0x40, 0x80 + n % 0x40]
  else if n < 0x10000 then [0xE0 + n / 0x1000, 0x80 + n / 0x40 % 0x40, 0x80 + n % 0x40]
  else [0xF0 + n / 0x40000, 0x80 + n / 0x1000 % 0x40, 0x80 + n / 0x40 % 0x40, 0x80 + n % 0x40]

def utf8EncodeChar (c : Char) : List Nat := utf8EncodeNat c.toNat

def utf8Encode : List Char → List Nat
  | [] => []
  | c :: r => utf8EncodeChar c ++ utf8Encode r

/-! ## Configuration loading (chapter 3 of `main.py`) -/

/-- The process environment, restricted to the variables `main.py`
reads: `none` means the variable is absent. -/
structure Environ where
  stripeEndpointSecret : Option String
  projectIdVar : Option String
  topicIdVar : Option String
  useFirestoreDedupe : Option String
deriving DecidableEq

/-- `os.getenv(name, default)`. -/
def getenvD (v : Option String) (dflt : String) : String := v.getD dflt

/-- ASCII lowercasing of one character (`str.lower()` on the ASCII
values an environment flag carries). -/
def lowerChar (c : Char) : Char :=
  if 65 ≤ c.toNat ∧ c.toNat ≤ 90 then Char.ofNat (c.toNat + 32) else c

def strLower (s : String) : String := ⟨s.data.map lowerChar⟩

/-- `STRIPE_ENDPOINT_SECRET = os.getenv("STRIPE_ENDPOINT_SECRET", "whsec_…")`
— note the hardcoded fallback in the source. -/
def stripeEndpointSecretOf (e : Environ) : String :=
  getenvD e.stripeEndpointSecret
    "whsec_8cb23418a763552f5fe32df43f87c7ed7335828b26956b719884c1636de2d0d0"

/-- `PROJECT_ID = os.getenv("PROJECT_ID", "dev-stripe-webhoook-gfunc")`. -/
def projectIdOf (e : Environ) : String := getenvD e.projectIdVar "dev-stripe-webhoook-gfunc"

/-- `TOPIC_ID = os.getenv("TOPIC_ID", "dev-stripe-webhoook-pubsub")`. -/
def topicIdOf (e : Environ) : String := getenvD e.topicIdVar "dev-stripe-webhoook-pubsub"

/-- `FIRESTORE_DEDUPE = os.getenv("USE_FIRESTORE_DEDUPE", "false").lower() == "true"`. -/
def firestoreDedupeOf (e : Environ) : Bool :=
  strLower (getenvD e.useFirestoreDedupe "false") == "true"

/-- The module-level constants after a successful import. -/
structure Config where
  stripeSecret : String
  projectId : String
  topicId : String
  firestoreDedupe : Bool
deriving DecidableEq

inductive ConfigError where
  | runtimeError
deriving DecidableEq

/-- Module import: resolve the three variables through their defaults,
then `if not all([...]): raise RuntimeError` — a Python string is falsy
exactly when it is empty, so the guard fires only when a resolved value
is the empty string. -/
def startup (e : Environ) : Except ConfigError Config :=
  if (stripeEndpointSecretOf e).isEmpty ∨ (projectIdOf e).isEmpty ∨ (topicIdOf e).isEmpty then
    .error .runtimeError
  else
    .ok ⟨stripeEndpointSecretOf e, projectIdOf e, topicIdOf e, firestoreDedupeOf e⟩

/-! ## The signature verifier (`stripe.Webhook.construct_event`) -/

inductive VerifyError where
  | payloadError
  | signatureError
deriving DecidableEq

/-- Modelled from the spec: the verifier itself lives in the external
Stripe SDK, not in this repository, so its contract is taken from §4.1
— a pure function of the raw body, the signature header and the shared
secret, failing with a payload error when the body is not well-formed
JSON and with a signature error when the header does not carry the
provider's signing output over the raw body. The timestamped HMAC is
abstracted as a deterministic MAC of the secret and the exact body
text. -/
def providerMac (payload : List Char) (secret : String) : String :=
  secret ++ "." ++ String.mk payload

/-- Modelled from the spec: `stripe.Webhook.construct_event(body, sig,
secret)` — parse the decoded body as JSON (`ValueError` when
malformed), check the signature header against the secret and body
(`SignatureVerificationError` on mismatch), and return the decoded
event. -/
def construct_event (payload : List Char) (sig : String) (secret : String) :
    Except VerifyError Json :=
  match loads payload with
  | none => .error .payloadError
  | some ev => if sig == providerMac payload secret then .ok ev else .error .signatureError

/-! ## Dedupe store, publisher and the handler (chapters 4–6) -/

/-- The dedupe state: the set of event ids recorded as processed. Both
backends (the in-process `TTLCache` and the Firestore collection) are a
key-membership structure over event ids; TTL eviction is not modelled,
so consecutive requests here are requests within the retention window.
-/
structure Store where
  cache : List Json
deriving DecidableEq

/-- Outcomes of the external collaborators during one request: whether
the Pub/Sub `publish(...).result()` acknowledges, and whether the
dedupe write succeeds. The in-memory `_cache[eid] = True` assignment
cannot fail; a Firestore `.set()` can. -/
structure World where
  pubOk : Bool
  markOk : Bool
deriving DecidableEq

/-- `already_processed(event_id)`: membership of the id in the store
(`document(...).get().exists` / `event_id in _cache`). -/
def already_processed (eid : Json) (st : Store) : Bool := st.cache.contains eid

inductive StoreError where
  | storeError
deriving DecidableEq

/-- `mark_processed(event_id)`: record the id. The Firestore branch is
a remote write and fails when the storage layer does (`w.markOk =
false`); the in-memory branch is an infallible dict assignment. -/
def mark_processed (cfg : Config) (w : World) (eid : Json) (st : Store) :
    Except StoreError Store :=
  if cfg.firestoreDedupe then
    if w.markOk then .ok ⟨eid :: st.cache⟩ else .error .storeError
  else .ok ⟨eid :: st.cache⟩

inductive PublishError where
  | publishError
deriving DecidableEq

/-- `publish(event_dict)`: serialize the event (`json.dumps(...).encode()`)
and send it; `.result()` blocks until the bus acknowledges, raising on
failure (`w.pubOk = false`). Returns the published message bytes. -/
def publish (w : World) (event : Json) : Except PublishError (List Nat) :=
  if w.pubOk then .ok (utf8Encode (dumps event)) else .error .publishError

/-- An HTTP response as `werkzeug.wrappers.Response` is constructed in
`main.py`: body text, status (default 200), mimetype (default
`text/plain`). -/
structure Response where
  body : List Char
  status : Nat
  mimetype : String
deriving DecidableEq

/-- `WSGIResponse(json.dumps(j), mimetype="application/json")`. -/
def jsonResponse (j : Json) : Response := ⟨dumps j, 200, "application/json"⟩

/-- The one-field objects the handler serializes into its 200 bodies. -/
def statusObj (s : List Char) : Json := .obj (.cons "status".data (.str s) .nil)

def liveResp : Response := jsonResponse (statusObj "live".data)
def okResp : Response := jsonResponse (statusObj "ok".data)
def duplicateResp : Response := jsonResponse (statusObj "duplicate".data)
def methodNotAllowedResp : Response := ⟨"Método não permitido".data, 405, "text/plain"⟩
def invalidPayloadResp : Response := ⟨"Invalid payload".data, 400, "text/plain"⟩
def invalidSignatureResp : Response := ⟨"Invalid signature".data, 400, "text/plain"⟩
def internalErrorResp : Response := ⟨"Internal error".data, 500, "text/plain"⟩

/-- An inbound HTTP request as the handler reads it: method, path (the
code never consults it), headers, raw body bytes. -/
structure Request where
  method : String
  path : String
  headers : List (String × String)
  body : List Nat
deriving DecidableEq

/-- `request.headers.get(name, "")`. -/
def headerGet (hs : List (String × String)) (k : String) : String :=
  match hs with
  | [] => ""
  | (k2, v) :: tl => if k2 == k then v else headerGet tl k

/-- What one call of `webhook` produced: the response, the dedupe state
afterwards, and the messages handed to the bus (in order). -/
structure HandleResult where
  resp : Response
  store : Store
  published : List (List Nat)

/-- The request handler `webhook(request)` of `main.py`, lines 144–175.
`none` marks the paths where an exception escapes the handler (a
payload with no `"id"`, or an unhashable id used as a cache key) and
the functions framework turns it into a generic 500. -/
def webhook (cfg : Config) (w : World) (req : Request) (st : Store) : Option HandleResult :=
  if req.method == "GET" then
    some ⟨liveResp, st, []⟩
  else if req.method != "POST" then
    some ⟨methodNotAllowedResp, st, []⟩
  else
    match utf8Decode req.body with
    | none => some ⟨invalidPayloadResp, st, []⟩
    | some rawText =>
      match construct_event rawText (headerGet req.headers "Stripe-Signature") cfg.stripeSecret with
      | .error .payloadError => some ⟨invalidPayloadResp, st, []⟩
      | .error .signatureError => some ⟨invalidSignatureResp, st, []⟩
      | .ok event =>
        match objGet event "id".data with
        | none => none
        | some eid =>
          if hashableKey eid then
            if already_processed eid st then
              some ⟨duplicateResp, st, []⟩
            else
              match publish w event with
              | .error _ => some ⟨internalErrorResp, st, []⟩
              | .ok msg =>
                match mark_processed cfg w eid st with
                | .error _ => some ⟨internalErrorResp, st, [msg]⟩
                | .ok st2 => some ⟨okResp, st2, [msg]⟩
          else none

/-! ## The Pub/Sub call shape (line 131)

The timing behaviour of `publisher.publish(topic_path, data).result()`
is not itself expressible in a shallow embedding, but the shape of the
call is: `.result()` is the blocking wait for the acknowledgement, and
it is invoked with no timeout argument, so nothing bounds the wait
below the platform's request deadline. -/

structure BusCallShape where
  blocking : Bool
  timeoutSeconds : Option Nat
deriving DecidableEq

/-- `publisher.publish(topic_path, data).result()` — a blocking wait,
no timeout passed. -/
def publishCallShape : BusCallShape := ⟨true, none⟩

/-! ## Concrete sample data used by witnesses -/

/-- The configuration produced by an environment that sets none of the
variables (all defaults). -/
def defaultConfig : Config :=
  ⟨"whsec_8cb23418a763552f5fe32df43f87c7ed7335828b26956b719884c1636de2d0d0",
   "dev-stripe-webhoook-gfunc", "dev-stripe-webhoook-pubsub", false⟩

/-- The same deployment with `USE_FIRESTORE_DEDUPE=true` (the variant
whose `mark_processed` performs a fallible remote write). -/
def firestoreConfig : Config :=
  ⟨"whsec_8cb23418a763552f5fe32df43f87c7ed7335828b26956b719884c1636de2d0d0",
   "dev-stripe-webhoook-gfunc", "dev-stripe-webhoook-pubsub", true⟩

/-- The environment with every variable absent. -/
def emptyEnviron : Environ := ⟨none, none, none, none⟩

def sampleEvent : Json :=
  .obj (.cons "id".data (.str "evt_1".data)
    (.cons "type".data (.str "payment_intent.succeeded".data)
      (.cons "created".data (.num 1700000000) .nil)))

def sampleBody : List Nat := utf8Encode (dumps sampleEvent)

def sampleSig : String := providerMac (dumps sampleEvent) defaultConfig.stripeSecret

def sampleReq : Request := ⟨"POST", "/", [("Stripe-Signature", sampleSig)], sampleBody⟩

def emptyStore : Store := ⟨[]⟩

/-! ## Auxiliary measures and predicates for the round-trip proof -/

/-- Whether the input continues with a digit (in which case it would
extend a preceding number literal). -/
def digitHead : List Char → Bool
  | [] => false
  | c :: _ => c.isDigit

/-! Fuel needed by `parseVal` on a serialized value: one unit per
parser entry. -/

mutual

def weight : Json → Nat
  | .null => 1
  | .bool _ => 1
  | .num _ => 1
  | .str _ => 1
  | .arr xs => 1 + weightE xs
  | .obj kvs => 1 + weightM kvs

def weightE : JsonList → Nat
  | .nil => 0
  | .cons v tl => 1 + weight v + weightE tl

def weightM : JsonObj → Nat
  | .nil => 0
  | .cons _ v tl => 1 + weight v + weightM tl

end

/-! ## C2 — startup validation -/

/-- C2: the claim says module import fails fast whenever a required
configuration value (signing secret, project id, topic id) is absent
from the environment. It does not: every `os.getenv` call in chapter 3
carries a hardcoded default (including a `whsec_…` signing secret), so
the `not all([...])` guard sees three non-empty strings and import
succeeds — here evaluated on the environment with all variables absent.
The guard can only fire when a variable is explicitly set to the empty
string. -/
theorem startup_all_absent_succeeds : startup emptyEnviron = .ok defaultConfig := rfl

/-! ## C8 — the publish call's blocking/timeout shape -/

/-- C8 (counterexample): the claim says `publish` blocks until the bus
acknowledges *and* applies an internal timeout shorter than the
upstream request deadline (60 s in the deployment instructions). The
call at line 131 passes no timeout to `.result()`, so no such bound
exists. -/
theorem publish_call_no_internal_timeout :
    ¬ (publishCallShape.blocking = true ∧
        ∃ t, publishCallShape.timeoutSeconds = some t ∧ t < 60) := by
  simp [publishCallShape]

/-- C8 (amended): `publish` blocks synchronously on the bus
acknowledgement (`.result()`), but applies no internal timeout at all —
a hung bus call stalls until the platform kills the request. -/
theorem publish_call_blocking_no_timeout :
    publishCallShape.blocking = true ∧ publishCallShape.timeoutSeconds = none :=
  ⟨rfl, rfl⟩

/-! ## C9 — GET liveness, any path -/

/-- C9: a GET request — whatever its path, headers or body, and
whatever the external world would do — is answered 200 with the
serialized `⦃"status": "live"⦄` object, with the dedupe store untouched
and nothing published. The handler tests only `request.method`. -/
theorem get_is_liveness_probe (cfg : Config) (w : World) (req : Request) (st : Store)
    (h : req.method = "GET") :
    webhook cfg w req st = some ⟨liveResp, st, []⟩ := by
  simp [webhook, h]

/-- C9 witness: a GET to the webhook path itself. -/
theorem get_is_liveness_probe_witness :
    webhook defaultConfig ⟨true, true⟩ ⟨"GET", "/webhook", [], sampleBody⟩ emptyStore =
      some ⟨liveResp, emptyStore, []⟩ :=
  get_is_liveness_probe defaultConfig ⟨true, true⟩ ⟨"GET", "/webhook", [], sampleBody⟩
    emptyStore rfl

/-! ## C6 — non-POST, non-GET methods -/

/-- C6: any request whose method is neither POST nor GET is answered
405 before verification, dedupe access or publish: the store is
unchanged and nothing is published, for every configuration and world.
-/
theorem other_methods_rejected (cfg : Config) (w : World) (req : Request) (st : Store)
    (hg : req.method ≠ "GET") (hp : req.method ≠ "POST") :
    webhook cfg w req st = some ⟨methodNotAllowedResp, st, []⟩ := by
  simp [webhook, hg, hp]

/-- C6 witness: a PUT request. -/
theorem other_methods_rejected_witness :
    webhook defaultConfig ⟨true, true⟩ ⟨"PUT", "/", [], sampleBody⟩ emptyStore =
      some ⟨methodNotAllowedResp, emptyStore, []⟩ :=
  other_methods_rejected defaultConfig ⟨true, true⟩ ⟨"PUT", "/", [], sampleBody⟩ emptyStore
    (by decide) (by decide)

/-! ## C5 — malformed bodies -/

/-- C5: a POST whose raw body is not decodable text
(`UnicodeDecodeError ⊂ ValueError` from `raw_body.decode()`) or whose
decoded text is not well-formed JSON (payload error from the verifier)
is answered 400 `Invalid payload`, with the store unchanged and nothing
published. -/
theorem invalid_payload_rejected (cfg : Config) (w : World) (req : Request) (st : Store)
    (hm : req.method = "POST")
    (hbad : utf8Decode req.body = none ∨
      ∃ p, utf8Decode req.body = some p ∧ loads p = none) :
    webhook cfg w req st = some ⟨invalidPayloadResp, st, []⟩ := by
  rcases hbad with hb | ⟨p, hp, hl⟩
  · simp [webhook, hm, hb]
  · simp [webhook, hm, hp, construct_event, hl]

/-- C5 witness: the body `[0xFF]` is not UTF-8. -/
theorem invalid_payload_rejected_witness :
    webhook defaultConfig ⟨true, true⟩ ⟨"POST", "/", [], [0xFF]⟩ emptyStore =
      some ⟨invalidPayloadResp, emptyStore, []⟩ :=
  invalid_payload_rejected defaultConfig ⟨true, true⟩ ⟨"POST", "/", [], [0xFF]⟩ emptyStore
    rfl (Or.inl rfl)

/-! ## C10 — frame: which paths write the store / publish -/

/-- C10: any handled request that ends in 405, in 400 (invalid payload
or invalid signature), or in the duplicate status leaves the dedupe
store exactly as it was and publishes nothing; and any handled request
that changed the store ended in the success response with a publish
performed. (The mark-failure 500 publishes but does not change the
store; the publish-failure 500 does neither.) -/
theorem non_success_paths_are_pure (cfg : Config) (w : World) (req : Request) (st : Store)
    (r : HandleResult) (h : webhook cfg w req st = some r) :
    ((r.resp = methodNotAllowedResp ∨ r.resp = invalidPayloadResp ∨
        r.resp = invalidSignatureResp ∨ r.resp = duplicateResp) →
      r.store = st ∧ r.published = []) ∧
    (r.store ≠ st → r.resp = okResp ∧ r.published ≠ []) := by
  unfold webhook at h
  repeat' split at h
  all_goals cases h
  all_goals dsimp only
  all_goals first
    | exact ⟨fun _ => ⟨rfl, rfl⟩, fun hs => absurd rfl hs⟩
    | (refine ⟨fun hx => ?_, fun hs => absurd rfl hs⟩
       rcases hx with hx | hx | hx | hx <;> exact absurd hx (by decide))
    | (refine ⟨fun hx => ?_, fun _ => ⟨rfl, by simp⟩⟩
       rcases hx with hx | hx | hx | hx <;> exact absurd hx (by decide))

/-- C10 witness: the duplicate path — a second delivery of the sample
event with its id already recorded. -/
theorem non_success_paths_are_pure_witness :
    ((duplicateResp = methodNotAllowedResp ∨ duplicateResp = invalidPayloadResp ∨
        duplicateResp = invalidSignatureResp ∨ duplicateResp = duplicateResp) →
      (⟨[Json.str "evt_1".data]⟩ : Store) = ⟨[Json.str "evt_1".data]⟩ ∧
        ([] : List (List Nat)) = []) ∧
    ((⟨[Json.str "evt_1".data]⟩ : Store) ≠ ⟨[Json.str "evt_1".data]⟩ →
      duplicateResp = okResp ∧ ([] : List (List Nat)) ≠ []) :=
  non_success_paths_are_pure defaultConfig ⟨true, true⟩ sampleReq ⟨[Json.str "evt_1".data]⟩
    ⟨duplicateResp, ⟨[Json.str "evt_1".data]⟩, []⟩ (by rfl)

/-! ## Reflexivity of the modelled Python equality -/

mutual

theorem jeq_refl : ∀ v : Json, jeq v v = true
  | .null => rfl
  | .bool b => by simp [jeq]
  | .num n => by simp [jeq]
  | .str s => by simp [jeq]
  | .arr xs => by simp [jeq, jeqL_refl xs]
  | .obj kvs => by simp [jeq, jeqO_refl kvs]

theorem jeqL_refl : ∀ xs : JsonList, jeqL xs xs = true
  | .nil => rfl
  | .cons v tl => by simp [jeqL, jeq_refl v, jeqL_refl tl]

theorem jeqO_refl : ∀ kvs : JsonObj, jeqO kvs kvs = true
  | .nil => rfl
  | .cons k v tl => by simp [jeqO, jeq_refl v, jeqO_refl tl]

end

/-- An id just recorded by `mark_processed` is seen by
`already_processed`. -/
theorem already_processed_cons (eid : Json) (c : List Json) :
    already_processed eid ⟨eid :: c⟩ = true := by
  have : (eid == eid) = true := jeq_refl eid
  simp [already_processed, List.contains_cons, this]

/-! ## C1 — markSeen failure after a successful publish -/

/-- C1 (counterexample): the claim says that when the publish succeeds
and the subsequent `mark_processed` fails, the handler still responds
200 `⦃"status": "ok"⦄`. It does not: `mark_processed` sits inside the
same `try` block as `publish` (lines 169–175), so its exception falls
into the same `except` and the handler answers 500 `Internal error` —
shown here on the sample event with a Firestore-backed store whose
write fails after a successful publish. -/
theorem mark_failure_yields_500_counterexample :
    webhook firestoreConfig ⟨true, false⟩ sampleReq emptyStore =
      some ⟨internalErrorResp, emptyStore, [sampleBody]⟩ ∧
    internalErrorResp.status = 500 ∧ internalErrorResp ≠ okResp :=
  ⟨rfl, rfl, by decide⟩

/-- C1 (amended): when the publish succeeds and the subsequent
`mark_processed` call fails, the handler responds 500 `Internal error`
(not 200): the message is already on the bus but the id is left
unrecorded, so the upstream retry this 500 invites would re-publish the
event. -/
theorem mark_failure_yields_500 (cfg : Config) (w : World) (req : Request) (st : Store)
    (p : List Char) (e eid : Json)
    (hm : req.method = "POST")
    (hd : utf8Decode req.body = some p)
    (hc : construct_event p (headerGet req.headers "Stripe-Signature") cfg.stripeSecret = .ok e)
    (hid : objGet e "id".data = some eid)
    (hh : hashableKey eid = true)
    (hnew : already_processed eid st = false)
    (hfs : cfg.firestoreDedupe = true)
    (hpub : w.pubOk = true) (hmk : w.markOk = false) :
    webhook cfg w req st = some ⟨internalErrorResp, st, [utf8Encode (dumps e)]⟩ := by
  simp [webhook, hm, hd, hc, hid, hh, hnew, publish, hpub, mark_processed, hfs, hmk]

/-- C1 witness: the amended behaviour on the sample event. -/
theorem mark_failure_yields_500_witness :
    webhook firestoreConfig ⟨true, false⟩ sampleReq emptyStore =
      some ⟨internalErrorResp, emptyStore, [utf8Encode (dumps sampleEvent)]⟩ :=
  mark_failure_yields_500 firestoreConfig ⟨true, false⟩ sampleReq emptyStore
    (dumps sampleEvent) sampleEvent (.str "evt_1".data)
    rfl rfl rfl rfl rfl rfl rfl rfl rfl

/-! ## C3 — publish failure preserves the retry -/

/-- C3: when the publish raises for a verified new event, the handler
answers 500, nothing is recorded in the dedupe store (the store is
returned unchanged — `mark_processed` runs only after `publish`
returns), and a retry of the identical request against a now-working
bus does invoke `publish` again with the event's serialized payload. -/
theorem publish_failure_preserves_retry (cfg : Config) (w : World) (req : Request) (st : Store)
    (p : List Char) (e eid : Json)
    (hm : req.method = "POST")
    (hd : utf8Decode req.body = some p)
    (hc : construct_event p (headerGet req.headers "Stripe-Signature") cfg.stripeSecret = .ok e)
    (hid : objGet e "id".data = some eid)
    (hh : hashableKey eid = true)
    (hnew : already_processed eid st = false)
    (hpub : w.pubOk = false) :
    webhook cfg w req st = some ⟨internalErrorResp, st, []⟩ ∧
    ∀ w2 : World, w2.pubOk = true →
      ∃ r2, webhook cfg w2 req st = some r2 ∧ r2.published = [utf8Encode (dumps e)] := by
  constructor
  · simp [webhook, hm, hd, hc, hid, hh, hnew, publish, hpub]
  · intro w2 h2
    cases hmp : mark_processed cfg w2 eid st with
    | error se =>
      exact ⟨⟨internalErrorResp, st, [utf8Encode (dumps e)]⟩,
        by simp [webhook, hm, hd, hc, hid, hh, hnew, publish, h2, hmp], rfl⟩
    | ok st2 =>
      exact ⟨⟨okResp, st2, [utf8Encode (dumps e)]⟩,
        by simp [webhook, hm, hd, hc, hid, hh, hnew, publish, h2, hmp], rfl⟩

/-- C3 witness: sample event, bus down, then the same request against a
working bus. -/
theorem publish_failure_preserves_retry_witness :
    webhook defaultConfig ⟨false, true⟩ sampleReq emptyStore =
      some ⟨internalErrorResp, emptyStore, []⟩ ∧
    ∃ r2, webhook defaultConfig ⟨true, true⟩ sampleReq emptyStore = some r2 ∧
      r2.published = [utf8Encode (dumps sampleEvent)] :=
  have h := publish_failure_preserves_retry defaultConfig ⟨false, true⟩ sampleReq emptyStore
    (dumps sampleEvent) sampleEvent (.str "evt_1".data)
    rfl rfl rfl rfl rfl rfl rfl
  ⟨h.1, h.2 ⟨true, true⟩ rfl⟩

/-! ## C4 — idempotent duplicate suppression -/

/-- C4: a verified new event is published exactly once and answered 200
`⦃"status": "ok"⦄`; resubmitting the same request against the resulting
store (within the retention window — no eviction between the two
requests) is answered 200 `⦃"status": "duplicate"⦄` with no further
publish, whatever the world does on the second call. -/
theorem duplicate_is_suppressed (cfg : Config) (w : World) (req : Request) (st : Store)
    (p : List Char) (e eid : Json)
    (hm : req.method = "POST")
    (hd : utf8Decode req.body = some p)
    (hc : construct_event p (headerGet req.headers "Stripe-Signature") cfg.stripeSecret = .ok e)
    (hid : objGet e "id".data = some eid)
    (hh : hashableKey eid = true)
    (hnew : already_processed eid st = false)
    (hpub : w.pubOk = true) (hmk : w.markOk = true) :
    webhook cfg w req st = some ⟨okResp, ⟨eid :: st.cache⟩, [utf8Encode (dumps e)]⟩ ∧
    ∀ w2 : World,
      webhook cfg w2 req ⟨eid :: st.cache⟩ = some ⟨duplicateResp, ⟨eid :: st.cache⟩, []⟩ := by
  constructor
  · by_cases hf : cfg.firestoreDedupe <;>
      simp [webhook, hm, hd, hc, hid, hh, hnew, publish, hpub, mark_processed, hf, hmk]
  · intro w2
    simp [webhook, hm, hd, hc, hid, hh, already_processed_cons]

/-- C4 witness: the sample event delivered twice. -/
theorem duplicate_is_suppressed_witness :
    webhook defaultConfig ⟨true, true⟩ sampleReq emptyStore =
      some ⟨okResp, ⟨[Json.str "evt_1".data]⟩, [utf8Encode (dumps sampleEvent)]⟩ ∧
    webhook defaultConfig ⟨true, false⟩ sampleReq ⟨[Json.str "evt_1".data]⟩ =
      some ⟨duplicateResp, ⟨[Json.str "evt_1".data]⟩, []⟩ :=
  have h := duplicate_is_suppressed defaultConfig ⟨true, true⟩ sampleReq emptyStore
    (dumps sampleEvent) sampleEvent (.str "evt_1".data)
    rfl rfl rfl rfl rfl rfl rfl rfl
  ⟨h.1, h.2 ⟨true, false⟩⟩

/-! ## C7 machinery — decimal literals invert -/

theorem digitChar_toNat (d : Nat) (h : d < 10) : (digitChar d).toNat = 48 + d := by
  interval_cases d <;> decide

theorem digitChar_isDigit (d : Nat) (h : d < 10) : (digitChar d).isDigit = true := by
  interval_cases d <;> decide

theorem isDigit_bounds (c : Char) (h : c.isDigit = true) : 48 ≤ c.toNat ∧ c.toNat ≤ 57 := by
  simp [Char.isDigit] at h
  exact h

/-- A digit character is not one of the structural characters the
parser dispatches on, and is not whitespace. -/
theorem isDigit_shape (c : Char) (h : c.isDigit = true) :
    isWsChar c = false ∧ c ≠ '-' ∧ c ≠ '"' ∧ c ≠ '[' ∧ c ≠ ']' ∧ c ≠ '\x7b' ∧ c ≠ '\x7d' ∧
      c ≠ ',' ∧ c ≠ ':' := by
  refine ⟨?_, ?_, ?_, ?_, ?_, ?_, ?_, ?_, ?_⟩
  · simp only [isWsChar, decide_eq_false_iff_not]
    rintro (rfl | rfl | rfl | rfl) <;> exact absurd h (by decide)
  all_goals rintro rfl
  all_goals exact absurd h (by decide)

/-- What `natDigitsAux` produces when adequately fueled: a nonempty
digit run carrying the value `n`, with a zero first digit only for
`n = 0`, prepended to the accumulator. -/
theorem natDigitsAux_spec :
    ∀ (fuel n : Nat) (acc : List Char), n < fuel →
      ∃ ds, natDigitsAux fuel n acc = ds ++ acc ∧ ds ≠ [] ∧
        (∀ c ∈ ds, c.isDigit = true) ∧ digitsVal ds = n ∧
        (∀ t, ds = '0' :: t → n = 0)
  | 0, n, acc, h => absurd h (by omega)
  | fuel + 1, n, acc, h => by
    by_cases h10 : n < 10
    · refine ⟨[digitChar n], by simp [natDigitsAux, h10], by simp, ?_, ?_, ?_⟩
      · intro c hc
        rw [List.mem_singleton] at hc
        subst hc
        exact digitChar_isDigit n h10
      · simp [digitsVal, digitChar_toNat n h10]
      · intro t ht
        have : digitChar n = '0' := (List.cons.injEq _ _ _ _ ▸ ht).1
        have h48 := digitChar_toNat n h10
        rw [this] at h48
        have h0 : ('0').toNat = 48 := rfl
        omega
    · have hq : n / 10 < fuel := by
        have : n / 10 < n := Nat.div_lt_self (by omega) (by omega)
        omega
      obtain ⟨ds, hds, hne, hdig, hval, hz⟩ :=
        natDigitsAux_spec fuel (n / 10) (digitChar (n % 10) :: acc) hq
      refine ⟨ds ++ [digitChar (n % 10)], ?_, by simp, ?_, ?_, ?_⟩
      · rw [natDigitsAux]
        simp only [if_neg h10]
        rw [hds, List.append_assoc, List.singleton_append]
      · intro c hc
        rcases List.mem_append.mp hc with hc | hc
        · exact hdig c hc
        · rw [List.mem_singleton] at hc
          subst hc
          exact digitChar_isDigit _ (Nat.mod_lt _ (by omega))
      · have hstep : digitsVal (ds ++ [digitChar (n % 10)]) =
            digitsVal ds * 10 + ((digitChar (n % 10)).toNat - 48) := by
          simp [digitsVal, List.foldl_append]
        rw [hstep, hval, digitChar_toNat _ (Nat.mod_lt _ (by omega))]
        omega
      · intro t ht
        match ds, hne with
        | d :: ds2, _ =>
          have hd0 : d = '0' := by
            have := ht
            rw [List.cons_append] at this
            exact (List.cons.injEq _ _ _ _ ▸ this).1
          have := hz ds2 (by rw [hd0])
          omega

theorem natRepr_spec (n : Nat) :
    natRepr n ≠ [] ∧ (∀ c ∈ natRepr n, c.isDigit = true) ∧ digitsVal (natRepr n) = n ∧
      (∀ t, natRepr n = '0' :: t → n = 0) := by
  obtain ⟨ds, hds, hne, hdig, hval, hz⟩ := natDigitsAux_spec (n + 1) n [] (by omega)
  rw [List.append_nil] at hds
  rw [natRepr, hds]
  exact ⟨hne, hdig, hval, hz⟩

theorem leadingZero_natRepr (n : Nat) : leadingZero (natRepr n) = false := by
  obtain ⟨hne, hdig, hval, hz⟩ := natRepr_spec n
  match h : natRepr n with
  | [] => rfl
  | [c] => rfl
  | c :: d :: t =>
    show (c == '0') = false
    by_cases hc : c = '0'
    · subst hc
      have hn0 : n = 0 := hz (d :: t) h
      subst hn0
      have : natRepr 0 = ['0'] := rfl
      rw [this] at h
      exact absurd h (by simp)
    · simp [hc]

/-- `takeDigits` does not start on a non-digit head. -/
theorem takeDigits_stop (cs : List Char) (h : digitHead cs = false) :
    takeDigits cs = ([], cs) := by
  match cs with
  | [] => rfl
  | c :: t =>
    have : c.isDigit = false := h
    simp [takeDigits, this]

/-- `takeDigits` consumes exactly a leading digit run. -/
theorem takeDigits_run (ds rest : List Char) (hds : ∀ c ∈ ds, c.isDigit = true)
    (hr : digitHead rest = false) : takeDigits (ds ++ rest) = (ds, rest) := by
  induction ds with
  | nil => simpa using takeDigits_stop rest hr
  | cons c t ih =>
    have hc : c.isDigit = true := hds c (List.mem_cons_self c t)
    have ht : takeDigits (t ++ rest) = (t, rest) :=
      ih fun x hx => hds x (List.mem_cons_of_mem c hx)
    rw [List.cons_append, takeDigits, if_pos hc, ht]

/-- The decimal-literal round trip: `parseNumber` inverts `intRepr`
whenever the remainder does not continue with a digit. -/
theorem parseNumber_intRepr (n : Int) (rest : List Char) (hr : digitHead rest = false) :
    parseNumber (intRepr n ++ rest) = some (.num n, rest) := by
  obtain ⟨hne, hdig, hval, hz⟩ := natRepr_spec n.toNat
  obtain ⟨hneN, hdigN, hvalN, hzN⟩ := natRepr_spec (-n).toNat
  by_cases hneg : n < 0
  · have harg : intRepr n ++ rest = '-' :: (natRepr (-n).toNat ++ rest) := by
      simp [intRepr, hneg]
    rw [harg]
    rw [parseNumber]
    rw [if_pos rfl, takeDigits_run _ _ hdigN hr]
    match hm : natRepr (-n).toNat, hneN with
    | d :: t, _ =>
      rw [hm] at hvalN
      have hlz : leadingZero (d :: t) = false := by rw [← hm]; exact leadingZero_natRepr _
      have hvn : (-(digitsVal (d :: t) : Int)) = n := by rw [hvalN]; omega
      simp [hlz, hvn]
  · match hm : natRepr n.toNat, hne with
    | c :: t, _ =>
      have hc : c.isDigit = true := hdig c (by rw [hm]; simp)
      obtain ⟨-, hcm, -, -, -, -, -, -, -⟩ := isDigit_shape c hc
      have harg : intRepr n ++ rest = c :: (t ++ rest) := by
        simp [intRepr, hneg, hm]
      rw [harg]
      rw [parseNumber]
      rw [if_neg hcm]
      have htake : takeDigits (c :: (t ++ rest)) = (c :: t, rest) := by
        have := takeDigits_run (c :: t) rest (by rw [← hm]; exact hdig) hr
        rw [List.cons_append] at this
        exact this
      rw [htake]
      have hlz : leadingZero (c :: t) = false := by rw [← hm]; exact leadingZero_natRepr _
      rw [hm] at hval
      have hvp : ((digitsVal (c :: t) : Int)) = n := by rw [hval]; omega
      simp [hlz, hvp]

/-! ## C7 machinery — string escaping inverts -/

/-- `Char` carries exactly the Unicode scalar values: every character's
code point is below the surrogate range or between it and 0x110000. -/
theorem char_scalar (c : Char) :
    c.toNat < 0xD800 ∨ (0xDFFF < c.toNat ∧ c.toNat < 0x110000) := c.valid

theorem hexVal_hexChar (d : Nat) (h : d < 16) : hexVal (hexChar d) = some d := by
  interval_cases d <;> decide

/-- A non-surrogate code point below 0x10000 is recovered from its four
hex digits. -/
theorem uDecode_hex4 (n : Nat) (rest : List Char) (hlt : n < 0x10000)
    (hns : ¬(0xD800 ≤ n ∧ n < 0xE000)) :
    uDecode (hex4 n ++ rest) = some (Char.ofNat n, rest) := by
  have e1 := hexVal_hexChar (n / 4096 % 16) (by omega)
  have e2 := hexVal_hexChar (n / 256 % 16) (by omega)
  have e3 := hexVal_hexChar (n / 16 % 16) (by omega)
  have e4 := hexVal_hexChar (n % 16) (by omega)
  have hv : ((n / 4096 % 16 * 16 + n / 256 % 16) * 16 + n / 16 % 16) * 16 + n % 16 = n := by
    omega
  show uDecode (hexChar (n / 4096 % 16) :: hexChar (n / 256 % 16) :: hexChar (n / 16 % 16) ::
    hexChar (n % 16) :: rest) = some (Char.ofNat n, rest)
  rw [uDecode]
  simp only [e1, e2, e3, e4]
  rw [hv]
  rw [if_neg (by omega), if_neg (by omega)]

/-- The low half of a surrogate pair parses back to its value. -/
theorem uPair_hex4 (hi lo : Nat) (rest : List Char) (hlo1 : 0xDC00 ≤ lo) (hlo2 : lo < 0xE000) :
    uPair hi ('\\' :: 'u' :: hex4 lo ++ rest) =
      some (Char.ofNat (0x10000 + (hi - 0xD800) * 0x400 + (lo - 0xDC00)), rest) := by
  have g1 := hexVal_hexChar (lo / 4096 % 16) (by omega)
  have g2 := hexVal_hexChar (lo / 256 % 16) (by omega)
  have g3 := hexVal_hexChar (lo / 16 % 16) (by omega)
  have g4 := hexVal_hexChar (lo % 16) (by omega)
  have hv : ((lo / 4096 % 16 * 16 + lo / 256 % 16) * 16 + lo / 16 % 16) * 16 + lo % 16 = lo := by
    omega
  show uPair hi ('\\' :: 'u' :: hexChar (lo / 4096 % 16) :: hexChar (lo / 256 % 16) ::
    hexChar (lo / 16 % 16) :: hexChar (lo % 16) :: rest) = _
  rw [uPair]
  simp only [g1, g2, g3, g4]
  rw [hv]
  rw [if_pos ⟨hlo1, hlo2⟩]

/-- A code point at or above 0x10000 is recovered from its surrogate
pair. -/
theorem uDecode_pair (n : Nat) (rest : List Char) (hge : 0x10000 ≤ n) (hlt : n < 0x110000) :
    uDecode (hex4 (0xD800 + (n - 0x10000) / 0x400) ++
      '\\' :: 'u' :: hex4 (0xDC00 + (n - 0x10000) % 0x400) ++ rest) =
      some (Char.ofNat n, rest) := by
  have e1 := hexVal_hexChar ((0xD800 + (n - 0x10000) / 0x400) / 4096 % 16) (by omega)
  have e2 := hexVal_hexChar ((0xD800 + (n - 0x10000) / 0x400) / 256 % 16) (by omega)
  have e3 := hexVal_hexChar ((0xD800 + (n - 0x10000) / 0x400) / 16 % 16) (by omega)
  have e4 := hexVal_hexChar ((0xD800 + (n - 0x10000) / 0x400) % 16) (by omega)
  have hv : (((0xD800 + (n - 0x10000) / 0x400) / 4096 % 16 * 16 +
      (0xD800 + (n - 0x10000) / 0x400) / 256 % 16) * 16 +
      (0xD800 + (n - 0x10000) / 0x400) / 16 % 16) * 16 +
      (0xD800 + (n - 0x10000) / 0x400) % 16 = 0xD800 + (n - 0x10000) / 0x400 := by
    omega
  show uDecode (hexChar ((0xD800 + (n - 0x10000) / 0x400) / 4096 % 16) ::
    hexChar ((0xD800 + (n - 0x10000) / 0x400) / 256 % 16) ::
    hexChar ((0xD800 + (n - 0x10000) / 0x400) / 16 % 16) ::
    hexChar ((0xD800 + (n - 0x10000) / 0x400) % 16) ::
    ('\\' :: 'u' :: hex4 (0xDC00 + (n - 0x10000) % 0x400) ++ rest)) = _
  rw [uDecode]
  simp only [e1, e2, e3, e4]
  rw [hv]
  rw [if_pos (by constructor <;> omega)]
  rw [uPair_hex4 _ _ rest (by omega) (by omega)]
  have hn : 0x10000 + (0xD800 + (n - 0x10000) / 0x400 - 0xD800) * 0x400 +
      (0xDC00 + (n - 0x10000) % 0x400 - 0xDC00) = n := by omega
  rw [hn]

/-- Every character's `json.dumps` escape falls into one of three
shapes: a two-character backslash escape undone by `unescapeChar`, a
`\uXXXX` escape of its code point, or the character itself. -/
theorem escapeChar_cases (c : Char) :
    (∃ x, escapeChar c = ['\\', x] ∧ x ≠ 'u' ∧ unescapeChar x = some c) ∨
    (escapeChar c = uEscape c.toNat ∧ (c.toNat < 0x20 ∨ 0x7f ≤ c.toNat)) ∨
    (escapeChar c = [c] ∧ c ≠ '"' ∧ c ≠ '\\' ∧ 0x20 ≤ c.toNat ∧ c.toNat < 0x7f) := by
  rw [escapeChar]
  split_ifs with h1 h2 h3 h4 h5 h6 h7 h8
  · subst h1; exact .inl ⟨'"', rfl, by decide, by decide⟩
  · subst h2; exact .inl ⟨'\\', rfl, by decide, by decide⟩
  · subst h3; exact .inl ⟨'n', rfl, by decide, by decide⟩
  · subst h4; exact .inl ⟨'t', rfl, by decide, by decide⟩
  · subst h5; exact .inl ⟨'r', rfl, by decide, by decide⟩
  · subst h6; exact .inl ⟨'b', rfl, by decide, by decide⟩
  · subst h7; exact .inl ⟨'f', rfl, by decide, by decide⟩
  · exact .inr (.inl ⟨rfl, h8⟩)
  · refine .inr (.inr ⟨rfl, h1, h2, ?_, ?_⟩) <;> omega

/-- No character escapes to the empty string. -/
theorem uEscape_ne_nil (n : Nat) : uEscape n ≠ [] := by
  rw [uEscape]
  split_ifs <;> simp

theorem escapeChar_ne_nil (c : Char) : escapeChar c ≠ [] := by
  rw [escapeChar]
  split_ifs <;> simp [uEscape_ne_nil]

theorem escapeStr_length (s : List Char) : s.length ≤ (escapeStr s).length := by
  induction s with
  | nil => simp [escapeStr]
  | cons c t ih =>
    have h1 : 1 ≤ (escapeChar c).length :=
      List.length_pos.mpr (escapeChar_ne_nil c)
    rw [escapeStr, List.length_append]
    simp only [List.length_cons]
    omega

/-- A printable character other than the quote and the backslash passes
through `parseStringAux` verbatim. -/
theorem parseStringAux_plain (f : Nat) (acc rest : List Char) (c : Char)
    (h1 : c ≠ '"') (h2 : c ≠ '\\') (h3 : ¬ c.toNat < 32) :
    parseStringAux (f + 1) acc (c :: rest) = parseStringAux f (c :: acc) rest := by
  rw [parseStringAux.eq_def]
  split <;> simp_all

/-- A `\u` escape head hands the rest of the input to `uDecode`. -/
theorem parseStringAux_u (f : Nat) (acc rest : List Char) :
    parseStringAux (f + 1) acc ('\\' :: 'u' :: rest) =
      match uDecode rest with
      | some (ch, rest2) => parseStringAux f (ch :: acc) rest2
      | none => none := by
  rw [parseStringAux.eq_def]
  rfl

theorem parseStringAux_uSome (f : Nat) (acc rest rest2 : List Char) (ch : Char)
    (h : uDecode rest = some (ch, rest2)) :
    parseStringAux (f + 1) acc ('\\' :: 'u' :: rest) = parseStringAux f (ch :: acc) rest2 := by
  rw [parseStringAux_u, h]

/-- A two-character escape other than `\u` steps by `unescapeChar`. -/
theorem parseStringAux_esc2 (f : Nat) (acc rest : List Char) (x c : Char)
    (hx : x ≠ 'u') (hu : unescapeChar x = some c) :
    parseStringAux (f + 1) acc ('\\' :: x :: rest) = parseStringAux f (c :: acc) rest := by
  rw [parseStringAux.eq_def]
  split <;> simp_all

/-- A `\uXXXX` escape — a surrogate pair where the code point demands
one — scans back to the escaped character. -/
theorem parseStringAux_uescape (f : Nat) (acc rest : List Char) (c : Char) :
    parseStringAux (f + 1) acc (uEscape c.toNat ++ rest) = parseStringAux f (c :: acc) rest := by
  have hsc := char_scalar c
  by_cases hlt : c.toNat < 0x10000
  · have hns : ¬(0xD800 ≤ c.toNat ∧ c.toNat < 0xE000) := by rcases hsc with h | h <;> omega
    have harg : uEscape c.toNat ++ rest = '\\' :: 'u' :: (hex4 c.toNat ++ rest) := by
      rw [uEscape, if_pos hlt]
      simp
    rw [harg, parseStringAux_uSome f acc _ rest (Char.ofNat c.toNat)
      (uDecode_hex4 c.toNat rest hlt hns), Char.ofNat_toNat]
  · have hlt2 : c.toNat < 0x110000 := by rcases hsc with h | h <;> omega
    have harg : uEscape c.toNat ++ rest = '\\' :: 'u' ::
        (hex4 (0xD800 + (c.toNat - 0x10000) / 0x400) ++
          '\\' :: 'u' :: hex4 (0xDC00 + (c.toNat - 0x10000) % 0x400) ++ rest) := by
      rw [uEscape, if_neg hlt]
      simp
    rw [harg, parseStringAux_uSome f acc _ rest (Char.ofNat c.toNat)
      (uDecode_pair c.toNat rest (by omega) hlt2), Char.ofNat_toNat]

/-- Parsing a rendered string body extends the accumulator with the
original characters. -/
theorem parseStringAux_escapeStr (s : List Char) :
    ∀ (f : Nat) (acc rest : List Char), s.length < f →
      parseStringAux f acc (escapeStr s ++ '"' :: rest) = some (acc.reverse ++ s, rest) := by
  induction s with
  | nil =>
    intro f acc rest hf
    match f, hf with
    | f + 1, hf =>
      show parseStringAux (f + 1) acc ('"' :: rest) = _
      rw [show parseStringAux (f + 1) acc ('"' :: rest) = some (acc.reverse, rest) from rfl]
      simp
  | cons c t ih =>
    intro f acc rest hf
    match f, hf with
    | f + 1, hf =>
      have hlt : t.length < f := by
        rw [List.length_cons] at hf
        omega
      have iht := ih f (c :: acc) rest hlt
      rcases escapeChar_cases c with ⟨x, he, hxu, hux⟩ | ⟨he, -⟩ | ⟨he, hq, hb, hlo, -⟩
      · have harg : escapeStr (c :: t) ++ '"' :: rest =
            '\\' :: x :: (escapeStr t ++ '"' :: rest) := by
          rw [escapeStr, he]
          simp
        rw [harg, parseStringAux_esc2 f acc _ x c hxu hux, iht]
        simp
      · have harg : escapeStr (c :: t) ++ '"' :: rest =
            uEscape c.toNat ++ (escapeStr t ++ '"' :: rest) := by
          rw [escapeStr, he]
          simp
        rw [harg, parseStringAux_uescape f acc _ c, iht]
        simp
      · have harg : escapeStr (c :: t) ++ '"' :: rest = c :: (escapeStr t ++ '"' :: rest) := by
          rw [escapeStr, he]
          simp
        rw [harg, parseStringAux_plain f acc _ c hq hb (by omega), iht]
        simp

/-- The string round trip at the handler level: `parseString` undoes
`json.dumps` escaping on every string. -/
theorem parseString_escapeStr (s rest : List Char) :
    parseString (escapeStr s ++ '"' :: rest) = some (s, rest) := by
  have hesc := escapeStr_length s
  have hlen : s.length < (escapeStr s ++ '"' :: rest).length + 1 := by
    rw [List.length_append]
    omega
  rw [parseString, parseStringAux_escapeStr s _ [] rest hlen]
  simp

/-! ## C7 machinery — whitespace and head-character dispatch -/

theorem skipWs_nws (c : Char) (t : List Char) (h : isWsChar c = false) :
    skipWs (c :: t) = c :: t := by
  rw [skipWs, h]
  simp

theorem parseVal_ws (f : Nat) (c : Char) (cs : List Char) (h : isWsChar c = true) :
    parseVal f (c :: cs) = parseVal f cs := by
  match f with
  | 0 => rfl
  | f + 1 =>
    rw [parseVal, parseVal]
    rw [show skipWs (c :: cs) = skipWs cs from by rw [skipWs, h]; simp]

theorem parseElems_ws (f : Nat) (c : Char) (cs : List Char) (h : isWsChar c = true) :
    parseElems f (c :: cs) = parseElems f cs := by
  match f with
  | 0 => rfl
  | f + 1 =>
    rw [parseElems, parseElems, parseVal_ws f c cs h]

theorem parseMembers_ws (f : Nat) (c : Char) (cs : List Char) (h : isWsChar c = true) :
    parseMembers f (c :: cs) = parseMembers f cs := by
  match f with
  | 0 => rfl
  | f + 1 =>
    rw [parseMembers, parseMembers]
    rw [show skipWs (c :: cs) = skipWs cs from by rw [skipWs, h]; simp]

/-- Every serialized value begins with a character that is neither
whitespace nor a closing delimiter nor a separator. -/
theorem dumps_head (v : Json) :
    ∃ c t, dumps v = c :: t ∧ isWsChar c = false ∧ c ≠ ']' ∧ c ≠ '\x7d' := by
  match v with
  | .null => exact ⟨'n', _, rfl, by decide, by decide, by decide⟩
  | .bool true => exact ⟨'t', _, rfl, by decide, by decide, by decide⟩
  | .bool false => exact ⟨'f', _, rfl, by decide, by decide, by decide⟩
  | .str s => exact ⟨'"', _, rfl, by decide, by decide, by decide⟩
  | .arr xs => exact ⟨'[', _, rfl, by decide, by decide, by decide⟩
  | .obj kvs => exact ⟨'\x7b', _, rfl, by decide, by decide, by decide⟩
  | .num n =>
    show ∃ c t, intRepr n = c :: t ∧ _
    by_cases hneg : n < 0
    · exact ⟨'-', _, by rw [intRepr, if_pos hneg], by decide, by decide, by decide⟩
    · obtain ⟨hne, hdig, -, -⟩ := natRepr_spec n.toNat
      match hm : natRepr n.toNat, hne with
      | c :: t, _ =>
        have hc : c.isDigit = true := hdig c (by rw [hm]; simp)
        obtain ⟨hws, -, -, -, hbr, -, hbc, -, -⟩ := isDigit_shape c hc
        exact ⟨c, t, by rw [intRepr, if_neg hneg, hm], hws, hbr, hbc⟩

/-! ## C7 machinery — fuel bounds and parser dispatch -/

theorem weight_pos (v : Json) : 1 ≤ weight v := by
  match v with
  | .null | .bool _ | .num _ | .str _ => simp [weight]
  | .arr xs => simp [weight]
  | .obj kvs => simp [weight]

mutual

theorem weight_le : ∀ v : Json, weight v ≤ (dumps v).length
  | .null => by simp [weight, dumps]
  | .bool true => by simp [weight, dumps]
  | .bool false => by simp [weight, dumps]
  | .num n => by
    rw [weight, dumps]
    rcases natRepr_spec n.toNat with ⟨hne, -, -, -⟩
    rcases natRepr_spec (-n).toNat with ⟨hneN, -, -, -⟩
    rw [intRepr]
    split_ifs
    · simp
    · exact List.length_pos.mpr hne
  | .str s => by simp [weight, dumps]
  | .arr xs => by
    have h := weightE_le xs
    rw [weight, dumps]
    simp only [List.length_cons, List.length_append, List.length_singleton]
    omega
  | .obj kvs => by
    have h := weightM_le kvs
    rw [weight, dumps]
    simp only [List.length_cons, List.length_append, List.length_singleton]
    omega

theorem weightE_le : ∀ xs : JsonList, weightE xs ≤ (dumpsElems xs).length + 1
  | .nil => by simp [weightE, dumpsElems]
  | .cons v .nil => by
    have h := weight_le v
    rw [weightE, weightE, dumpsElems]
    omega
  | .cons v (.cons w tl) => by
    have h1 := weight_le v
    have h2 := weightE_le (.cons w tl)
    rw [weightE, dumpsElems]
    simp only [List.length_append, List.length_cons]
    omega

theorem weightM_le : ∀ kvs : JsonObj, weightM kvs ≤ (dumpsMembers kvs).length + 1
  | .nil => by simp [weightM, dumpsMembers]
  | .cons k v .nil => by
    have h := weight_le v
    rw [weightM, weightM, dumpsMembers]
    simp only [List.length_cons, List.length_append]
    omega
  | .cons k v (.cons k2 v2 tl) => by
    have h1 := weight_le v
    have h2 := weightM_le (.cons k2 v2 tl)
    rw [weightM, dumpsMembers]
    simp only [List.length_cons, List.length_append]
    omega

end

/-- The array branch of `parseVal`, when the element text does not
open with a closing bracket. -/
theorem parseVal_arr_go (f : Nat) (c : Char) (t : List Char)
    (hws : isWsChar c = false) (hne : c ≠ ']') :
    parseVal (f + 1) ('[' :: c :: t) =
      (parseElems f (c :: t)).map (fun p => (Json.arr p.1, p.2)) := by
  have hws2 : ¬(c = ' ' ∨ c = '\t' ∨ c = '\n' ∨ c = '\r') := by
    simpa [isWsChar] using hws
  simp [parseVal, skipWs, isWsChar, hws2, hne]

/-- The object branch of `parseVal`: member text opens with the key's
quote. -/
theorem parseVal_obj_go (f : Nat) (t : List Char) :
    parseVal (f + 1) ('\x7b' :: '"' :: t) =
      (parseMembers f ('"' :: t)).map (fun p => (Json.obj p.1, p.2)) := by
  simp [parseVal, skipWs, isWsChar]

/-- The number branch of `parseVal`. -/
theorem parseVal_num_go (f : Nat) (c : Char) (t : List Char)
    (hws : isWsChar c = false) (hd : c = '-' ∨ c.isDigit = true) :
    parseVal (f + 1) (c :: t) = parseNumber (c :: t) := by
  rw [parseVal, skipWs_nws c t hws]
  exact if_pos hd

/-! ## C7 machinery — the serializer/parser round trip -/

mutual

theorem parseVal_dumps : ∀ (v : Json) (f : Nat) (rest : List Char),
    weight v ≤ f → digitHead rest = false →
    parseVal f (dumps v ++ rest) = some (v, rest)
  | v, 0, rest, hw, _ => absurd (le_trans (weight_pos v) hw) (by omega)
  | .null, f + 1, rest, _, _ => by
    show parseVal (f + 1) ('n' :: 'u' :: 'l' :: 'l' :: rest) = _
    simp [parseVal, skipWs, isWsChar]
  | .bool true, f + 1, rest, _, _ => by
    show parseVal (f + 1) ('t' :: 'r' :: 'u' :: 'e' :: rest) = _
    simp [parseVal, skipWs, isWsChar]
  | .bool false, f + 1, rest, _, _ => by
    show parseVal (f + 1) ('f' :: 'a' :: 'l' :: 's' :: 'e' :: rest) = _
    simp [parseVal, skipWs, isWsChar]
  | .num n, f + 1, rest, _, hr => by
    show parseVal (f + 1) (intRepr n ++ rest) = some (.num n, rest)
    by_cases hneg : n < 0
    · have harg : intRepr n ++ rest = '-' :: (natRepr (-n).toNat ++ rest) := by
        simp [intRepr, hneg]
      rw [harg, parseVal_num_go f '-' _ (by decide) (Or.inl rfl), ← harg,
        parseNumber_intRepr n rest hr]
    · rcases natRepr_spec n.toNat with ⟨hne, hdig, -, -⟩
      match hm : natRepr n.toNat, hne with
      | c :: t, _ =>
        have hc : c.isDigit = true := hdig c (by rw [hm]; simp)
        obtain ⟨hws, -, -, -, -, -, -, -, -⟩ := isDigit_shape c hc
        have harg : intRepr n ++ rest = c :: (t ++ rest) := by
          simp [intRepr, hneg, hm]
        rw [harg, parseVal_num_go f c _ hws (Or.inr hc), ← harg,
          parseNumber_intRepr n rest hr]
  | .str s, f + 1, rest, _, _ => by
    have harg : dumps (.str s) ++ rest = '"' :: (escapeStr s ++ '"' :: rest) := by
      rw [dumps]
      simp
    rw [harg]
    simp [parseVal, skipWs, isWsChar, parseString_escapeStr s rest]
  | .arr .nil, f + 1, rest, _, _ => by
    show parseVal (f + 1) ('[' :: ']' :: rest) = _
    simp [parseVal, skipWs, isWsChar]
  | .arr (.cons v tl), f + 1, rest, hw, _ => by
    have hwE : weightE (.cons v tl) ≤ f := by rw [weight] at hw; omega
    obtain ⟨c, t, hhd, hws, hbr, -⟩ := dumps_head v
    have harg : dumps (.arr (.cons v tl)) ++ rest =
        '[' :: (dumpsElems (.cons v tl) ++ ']' :: rest) := by
      rw [dumps]
      simp
    have hT : ∃ T, dumpsElems (.cons v tl) ++ ']' :: rest = c :: T := by
      match tl with
      | .nil => exact ⟨t ++ ']' :: rest, by rw [dumpsElems, hhd]; simp⟩
      | .cons w tl2 =>
        exact ⟨t ++ (',' :: ' ' :: dumpsElems (.cons w tl2)) ++ ']' :: rest,
          by rw [dumpsElems, hhd]; simp⟩
    obtain ⟨T, hT⟩ := hT
    rw [harg, hT, parseVal_arr_go f c T hws hbr, ← hT,
      parseElems_dumps (.cons v tl) f rest hwE (by simp)]
    rfl
  | .obj .nil, f + 1, rest, _, _ => by
    show parseVal (f + 1) ('\x7b' :: '\x7d' :: rest) = _
    simp [parseVal, skipWs, isWsChar]
  | .obj (.cons k v tl), f + 1, rest, hw, _ => by
    have hwM : weightM (.cons k v tl) ≤ f := by rw [weight] at hw; omega
    have harg : dumps (.obj (.cons k v tl)) ++ rest =
        '\x7b' :: (dumpsMembers (.cons k v tl) ++ '\x7d' :: rest) := by
      rw [dumps]
      simp
    have hT : ∃ T, dumpsMembers (.cons k v tl) ++ '\x7d' :: rest = '"' :: T := by
      match tl with
      | .nil =>
        exact ⟨escapeStr k ++ '"' :: ':' :: ' ' :: dumps v ++ '\x7d' :: rest,
          by rw [dumpsMembers]; simp⟩
      | .cons k2 v2 tl2 =>
        exact ⟨escapeStr k ++ '"' :: ':' :: ' ' :: dumps v ++
            (',' :: ' ' :: dumpsMembers (.cons k2 v2 tl2)) ++ '\x7d' :: rest,
          by rw [dumpsMembers]; simp⟩
    obtain ⟨T, hT⟩ := hT
    rw [harg, hT, parseVal_obj_go f T, ← hT,
      parseMembers_dumps (.cons k v tl) f rest hwM (by simp)]
    rfl

theorem parseElems_dumps : ∀ (xs : JsonList) (f : Nat) (rest : List Char),
    weightE xs ≤ f → xs ≠ .nil →
    parseElems f (dumpsElems xs ++ ']' :: rest) = some (xs, rest)
  | .nil, _, _, _, hne => absurd rfl hne
  | .cons v tl, f, rest, hw, _ => by
    match f, hw with
    | 0, hw => rw [weightE] at hw; omega
    | f + 1, hw =>
      have hw' : 1 + weight v + weightE tl ≤ f + 1 := by rw [weightE] at hw; exact hw
      rw [parseElems]
      match tl with
      | .nil =>
        have harg : dumpsElems (.cons v .nil) ++ ']' :: rest = dumps v ++ ']' :: rest := by
          rw [dumpsElems]
        rw [harg, parseVal_dumps v f (']' :: rest) (by omega) (by rfl)]
        simp [Option.some_bind, skipWs, isWsChar]
      | .cons w tl2 =>
        have harg : dumpsElems (.cons v (.cons w tl2)) ++ ']' :: rest =
            dumps v ++ (',' :: ' ' :: (dumpsElems (.cons w tl2) ++ ']' :: rest)) := by
          rw [dumpsElems]
          simp
        have hwtl : weightE (.cons w tl2) ≤ f := by
          have := weight_pos v
          omega
        rw [harg, parseVal_dumps v f _ (by have := weight_pos v; omega) (by rfl)]
        simp only [Option.some_bind]
        rw [show skipWs (',' :: ' ' :: (dumpsElems (.cons w tl2) ++ ']' :: rest)) =
          ',' :: ' ' :: (dumpsElems (.cons w tl2) ++ ']' :: rest) from by
            simp [skipWs, isWsChar]]
        show (parseElems (f) (' ' :: (dumpsElems (.cons w tl2) ++ ']' :: rest))).map _ = _
        rw [parseElems_ws f ' ' _ (by decide),
          parseElems_dumps (.cons w tl2) f rest hwtl (by simp)]
        rfl

theorem parseMembers_dumps : ∀ (kvs : JsonObj) (f : Nat) (rest : List Char),
    weightM kvs ≤ f → kvs ≠ .nil →
    parseMembers f (dumpsMembers kvs ++ '\x7d' :: rest) = some (kvs, rest)
  | .nil, _, _, _, hne => absurd rfl hne
  | .cons k v tl, f, rest, hw, _ => by
    match f, hw with
    | 0, hw => rw [weightM] at hw; omega
    | f + 1, hw =>
      have hw' : 1 + weight v + weightM tl ≤ f + 1 := by rw [weightM] at hw; exact hw
      match tl with
      | .nil =>
        have harg : dumpsMembers (.cons k v .nil) ++ '\x7d' :: rest =
            '"' :: (escapeStr k ++ '"' :: (':' :: ' ' :: (dumps v ++ '\x7d' :: rest))) := by
          rw [dumpsMembers]
          simp
        rw [harg, parseMembers]
        rw [show skipWs ('"' :: (escapeStr k ++ '"' :: (':' :: ' ' :: (dumps v ++ '\x7d' :: rest)))) =
          '"' :: (escapeStr k ++ '"' :: (':' :: ' ' :: (dumps v ++ '\x7d' :: rest))) from by
            simp [skipWs, isWsChar]]
        show (parseString (escapeStr k ++ '"' :: (':' :: ' ' :: (dumps v ++ '\x7d' :: rest)))).bind _ = _
        rw [parseString_escapeStr k _]
        simp only [Option.some_bind]
        rw [show skipWs (':' :: ' ' :: (dumps v ++ '\x7d' :: rest)) =
          ':' :: ' ' :: (dumps v ++ '\x7d' :: rest) from by simp [skipWs, isWsChar]]
        show (parseVal f (' ' :: (dumps v ++ '\x7d' :: rest))).bind _ = _
        rw [parseVal_ws f ' ' _ (by decide),
          parseVal_dumps v f ('\x7d' :: rest) (by omega) (by rfl)]
        simp [Option.some_bind, skipWs, isWsChar]
      | .cons k2 v2 tl2 =>
        have harg : dumpsMembers (.cons k v (.cons k2 v2 tl2)) ++ '\x7d' :: rest =
            '"' :: (escapeStr k ++ '"' :: (':' :: ' ' ::
              (dumps v ++ (',' :: ' ' :: (dumpsMembers (.cons k2 v2 tl2) ++ '\x7d' :: rest))))) := by
          rw [dumpsMembers]
          simp
        have hwtl : weightM (.cons k2 v2 tl2) ≤ f := by
          have := weight_pos v
          omega
        rw [harg, parseMembers]
        rw [show skipWs ('"' :: (escapeStr k ++ '"' :: (':' :: ' ' ::
            (dumps v ++ (',' :: ' ' :: (dumpsMembers (.cons k2 v2 tl2) ++ '\x7d' :: rest)))))) =
          '"' :: (escapeStr k ++ '"' :: (':' :: ' ' ::
            (dumps v ++ (',' :: ' ' :: (dumpsMembers (.cons k2 v2 tl2) ++ '\x7d' :: rest))))) from by
            simp [skipWs, isWsChar]]
        show (parseString (escapeStr k ++ '"' :: (':' :: ' ' ::
          (dumps v ++ (',' :: ' ' :: (dumpsMembers (.cons k2 v2 tl2) ++ '\x7d' :: rest)))))).bind _ = _
        rw [parseString_escapeStr k _]
        simp only [Option.some_bind]
        rw [show skipWs (':' :: ' ' ::
            (dumps v ++ (',' :: ' ' :: (dumpsMembers (.cons k2 v2 tl2) ++ '\x7d' :: rest)))) =
          ':' :: ' ' ::
            (dumps v ++ (',' :: ' ' :: (dumpsMembers (.cons k2 v2 tl2) ++ '\x7d' :: rest))) from by
            simp [skipWs, isWsChar]]
        show (parseVal f (' ' ::
          (dumps v ++ (',' :: ' ' :: (dumpsMembers (.cons k2 v2 tl2) ++ '\x7d' :: rest))))).bind _ = _
        rw [parseVal_ws f ' ' _ (by decide),
          parseVal_dumps v f _ (by omega) (by rfl)]
        simp only [Option.some_bind]
        rw [show skipWs (',' :: ' ' :: (dumpsMembers (.cons k2 v2 tl2) ++ '\x7d' :: rest)) =
          ',' :: ' ' :: (dumpsMembers (.cons k2 v2 tl2) ++ '\x7d' :: rest) from by
            simp [skipWs, isWsChar]]
        show (parseMembers f (' ' :: (dumpsMembers (.cons k2 v2 tl2) ++ '\x7d' :: rest))).map _ = _
        rw [parseMembers_ws f ' ' _ (by decide),
          parseMembers_dumps (.cons k2 v2 tl2) f rest hwtl (by simp)]
        rfl

end

/-! ## C7 machinery — serialized output is ASCII, and UTF-8 inverts on it -/

theorem asciiNil : ∀ x ∈ ([] : List Char), x.toNat < 128 := by simp

theorem asciiCons (c : Char) (l : List Char) (hc : c.toNat < 128)
    (hl : ∀ x ∈ l, x.toNat < 128) : ∀ x ∈ c :: l, x.toNat < 128 := by
  intro x hx
  rcases List.mem_cons.mp hx with rfl | hx
  · exact hc
  · exact hl x hx

theorem asciiAppend (l1 l2 : List Char) (h1 : ∀ x ∈ l1, x.toNat < 128)
    (h2 : ∀ x ∈ l2, x.toNat < 128) : ∀ x ∈ l1 ++ l2, x.toNat < 128 := by
  intro x hx
  rcases List.mem_append.mp hx with hx | hx
  · exact h1 x hx
  · exact h2 x hx

theorem hexChar_ascii (d : Nat) (h : d < 16) : (hexChar d).toNat < 128 := by
  interval_cases d <;> decide

theorem hex4_ascii (n : Nat) : ∀ c ∈ hex4 n, c.toNat < 128 := by
  intro c hc
  rw [hex4] at hc
  fin_cases hc <;> exact hexChar_ascii _ (Nat.mod_lt _ (by omega))

theorem uEscape_ascii (n : Nat) : ∀ c ∈ uEscape n, c.toNat < 128 := by
  rw [uEscape]
  split_ifs
  · exact asciiCons _ _ (by decide) (asciiCons _ _ (by decide) (hex4_ascii n))
  · exact asciiAppend _ _
      (asciiCons _ _ (by decide) (asciiCons _ _ (by decide) (hex4_ascii _)))
      (asciiCons _ _ (by decide) (asciiCons _ _ (by decide) (hex4_ascii _)))

theorem escapeChar_ascii (c : Char) : ∀ x ∈ escapeChar c, x.toNat < 128 := by
  rw [escapeChar]
  split_ifs with h1 h2 h3 h4 h5 h6 h7 h8
  · decide
  · decide
  · decide
  · decide
  · decide
  · decide
  · decide
  · exact uEscape_ascii c.toNat
  · exact asciiCons _ _ (by omega) asciiNil

theorem escapeStr_ascii (s : List Char) : ∀ x ∈ escapeStr s, x.toNat < 128 := by
  induction s with
  | nil => simp [escapeStr]
  | cons c t ih =>
    rw [escapeStr]
    exact asciiAppend _ _ (escapeChar_ascii c) ih

theorem natRepr_ascii (m : Nat) : ∀ x ∈ natRepr m, x.toNat < 128 := by
  intro x hx
  rcases natRepr_spec m with ⟨-, hdig, -, -⟩
  have := isDigit_bounds x (hdig x hx)
  omega

theorem intRepr_ascii (n : Int) : ∀ x ∈ intRepr n, x.toNat < 128 := by
  rw [intRepr]
  split_ifs
  · exact asciiCons _ _ (by decide) (natRepr_ascii _)
  · exact natRepr_ascii _

mutual

theorem dumps_ascii : ∀ v : Json, ∀ x ∈ dumps v, x.toNat < 128
  | .null => by
    rw [show dumps .null = ['n', 'u', 'l', 'l'] from rfl]
    decide
  | .bool true => by
    rw [show dumps (.bool true) = ['t', 'r', 'u', 'e'] from rfl]
    decide
  | .bool false => by
    rw [show dumps (.bool false) = ['f', 'a', 'l', 's', 'e'] from rfl]
    decide
  | .num n => by
    rw [dumps]
    exact intRepr_ascii n
  | .str s => by
    rw [dumps]
    exact asciiCons _ _ (by decide)
      (asciiAppend _ _ (escapeStr_ascii s) (asciiCons _ _ (by decide) asciiNil))
  | .arr xs => by
    rw [dumps]
    exact asciiCons _ _ (by decide)
      (asciiAppend _ _ (dumpsElems_ascii xs) (asciiCons _ _ (by decide) asciiNil))
  | .obj kvs => by
    rw [dumps]
    exact asciiCons _ _ (by decide)
      (asciiAppend _ _ (dumpsMembers_ascii kvs) (asciiCons _ _ (by decide) asciiNil))

theorem dumpsElems_ascii : ∀ xs : JsonList, ∀ x ∈ dumpsElems xs, x.toNat < 128
  | .nil => by
    rw [dumpsElems]
    exact asciiNil
  | .cons v .nil => by
    rw [dumpsElems]
    exact dumps_ascii v
  | .cons v (.cons w tl) => by
    rw [dumpsElems]
    exact asciiAppend _ _ (dumps_ascii v)
      (asciiCons _ _ (by decide) (asciiCons _ _ (by decide)
        (dumpsElems_ascii (.cons w tl))))

theorem dumpsMembers_ascii : ∀ kvs : JsonObj, ∀ x ∈ dumpsMembers kvs, x.toNat < 128
  | .nil => by
    rw [dumpsMembers]
    exact asciiNil
  | .cons k v .nil => by
    rw [dumpsMembers]
    exact asciiCons _ _ (by decide)
      (asciiAppend _ _ (escapeStr_ascii k)
        (asciiCons _ _ (by decide) (asciiCons _ _ (by decide)
          (asciiCons _ _ (by decide) (dumps_ascii v)))))
  | .cons k v (.cons k2 v2 tl) => by
    rw [dumpsMembers]
    refine asciiCons _ _ (by decide) ?_
    refine asciiAppend _ _ ?_ ?_
    · refine asciiAppend _ _ (escapeStr_ascii k) ?_
      exact asciiCons _ _ (by decide) (asciiCons _ _ (by decide)
        (asciiCons _ _ (by decide) (dumps_ascii v)))
    · exact asciiCons _ _ (by decide) (asciiCons _ _ (by decide)
        (dumpsMembers_ascii (.cons k2 v2 tl)))

end

/-- Every character occupies at least one byte of UTF-8. -/
theorem utf8Encode_length (s : List Char) : s.length ≤ (utf8Encode s).length := by
  induction s with
  | nil => simp [utf8Encode]
  | cons c t ih =>
    have h1 : 1 ≤ (utf8EncodeChar c).length := by
      rw [utf8EncodeChar, utf8EncodeNat]
      split_ifs <;> simp
    rw [utf8Encode, List.length_append, List.length_cons]
    omega

theorem utf8DecodeAux_ascii (s : List Char) :
    ∀ f : Nat, s.length < f → (∀ c ∈ s, c.toNat < 128) →
      utf8DecodeAux f (utf8Encode s) = some s := by
  induction s with
  | nil =>
    intro f hf _
    match f, hf with
    | f + 1, _ => rfl
  | cons c t ih =>
    intro f hf h
    have hc := h c (by simp)
    match f, hf with
    | f + 1, hf =>
      have hlt : t.length < f := by
        rw [List.length_cons] at hf
        omega
      have ht := ih f hlt (fun x hx => h x (by simp [hx]))
      rw [utf8Encode]
      rw [show utf8EncodeChar c = [c.toNat] from by
        rw [utf8EncodeChar, utf8EncodeNat, if_pos hc]]
      rw [List.singleton_append, utf8DecodeAux]
      rw [if_pos hc, ht, Option.map_some', Char.ofNat_toNat]

/-- `str.encode()` followed by `bytes.decode()` is the identity on
ASCII text — in particular on `json.dumps` output. -/
theorem utf8_ascii_roundtrip (s : List Char) (h : ∀ c ∈ s, c.toNat < 128) :
    utf8Decode (utf8Encode s) = some s := by
  have hlen := utf8Encode_length s
  rw [utf8Decode, utf8DecodeAux_ascii s _ (by omega) h]

/-- `json.loads` inverts `json.dumps` on every value of the embedding. -/
theorem loads_dumps (v : Json) : loads (dumps v) = some v := by
  have hw : weight v ≤ (dumps v).length + 1 := le_trans (weight_le v) (by omega)
  have h1 := parseVal_dumps v ((dumps v).length + 1) [] hw rfl
  rw [List.append_nil] at h1
  rw [loads, h1]
  rfl

/-! ## C7 — the publish envelope round trip -/

/-- C7: the envelope `publish` hands to the bus is
`json.dumps(event).encode()`; for every event value of the embedding, a
downstream consumer that decodes the bytes and parses the JSON recovers
the event exactly — identical `id`, `type` and payload (the value is
recovered whole, including non-ASCII string content, which travels as
`ensure_ascii` `\uXXXX` escapes and is unescaped by `json.loads`). -/
theorem publish_envelope_roundtrip (e : Json) :
    (utf8Decode (utf8Encode (dumps e))).bind loads = some e := by
  rw [utf8_ascii_roundtrip (dumps e) (dumps_ascii e), Option.some_bind, loads_dumps e]

/-- The sample event round-trips through its envelope. -/
theorem publish_envelope_roundtrip_witness :
    (utf8Decode (utf8Encode (dumps sampleEvent))).bind loads = some sampleEvent :=
  publish_envelope_roundtrip sampleEvent
